import Mathlib

set_option autoImplicit false

/-!
Verification of the toonslate backend against its specification.
Python floats are embedded as exact rationals; the pydantic `BBox`
model validator, the pipeline region records, the Redis-script quota
engine, the worker status updates, the batch aggregator, the Gemini
translation mapping, the detection retry loop and the erase service
resolution are each embedded as executable Lean functions mirroring
the corresponding Python source.
-/

namespace Toonslate

/-- Bounding box `[x1, y1, x2, y2]` over exact rationals
(embedding of `src/schemas/pipeline.py` class `BBox`). -/
structure BBox where
  x1 : ℚ
  y1 : ℚ
  x2 : ℚ
  y2 : ℚ
  deriving DecidableEq, Repr

/-- The pydantic `model_validator` `validate_and_normalize`: swap an
inverted coordinate pair, then clamp every coordinate at 0.  Every
`BBox(...)` construction in the Python source runs this validator, so
every embedded construction goes through `mkBBox`. -/
def mkBBox (x1 y1 x2 y2 : ℚ) : BBox :=
  let px := if x1 > x2 then (x2, x1) else (x1, x2)
  let py := if y1 > y2 then (y2, y1) else (y1, y2)
  ⟨max 0 px.1, max 0 py.1, max 0 px.2, max 0 py.2⟩

def BBox.width (b : BBox) : ℚ := b.x2 - b.x1

def BBox.height (b : BBox) : ℚ := b.y2 - b.y1

def BBox.toList (b : BBox) : List ℚ := [b.x1, b.y1, b.x2, b.y2]

/-- `BBox.is_valid`: positive width and height. -/
def BBox.isValid (b : BBox) : Bool := b.width > 0 && b.height > 0

/-- A bbox satisfying the documented `BBox` invariants. -/
def BBox.Normalized (b : BBox) : Prop :=
  0 ≤ b.x1 ∧ b.x1 ≤ b.x2 ∧ 0 ≤ b.y1 ∧ b.y1 ≤ b.y2

instance (b : BBox) : Decidable b.Normalized := by
  unfold BBox.Normalized; infer_instance

/-- A Python float: a finite value (embedded exactly), or NaN, or an
infinity.  `math.isnan` / `math.isinf` distinguish the non-finite cases. -/
inductive PyFloat where
  | fin (q : ℚ)
  | nan
  | inf
  | ninf
  deriving DecidableEq, Repr

def PyFloat.isFinite : PyFloat → Bool
  | .fin _ => true
  | _ => false

inductive FromListError where
  | arityError
  | nonFiniteError
  deriving DecidableEq, Repr

/-- `BBox.from_list`: reject wrong arity, reject NaN/Inf coordinates,
then construct through the validator. -/
def fromList (coords : List PyFloat) : Except FromListError BBox :=
  match coords with
  | [a, b, c, d] =>
    match a, b, c, d with
    | .fin qa, .fin qb, .fin qc, .fin qd => .ok (mkBBox qa qb qc qd)
    | _, _, _, _ => .error .nonFiniteError
  | _ => .error .arityError

/-- `INSCRIBED_RATIO` from `src/services/inpainting/utils.py`. -/
def inscribedRatio : ℚ := 65 / 100

/-- `OVERLAP_THRESHOLD` from `src/services/inpainting/utils.py`. -/
def overlapThreshold : ℚ := 1 / 2

/-- `calc_overlap_ratio(box_a, box_b)`: intersection area over the area
of `box_a`; 0 on degenerate `box_a` or empty intersection. -/
def calcOverlapRatio (a b : BBox) : ℚ :=
  let areaA := a.width * a.height
  if areaA ≤ 0 then 0
  else
    let ix1 := max a.x1 b.x1
    let iy1 := max a.y1 b.y1
    let ix2 := min a.x2 b.x2
    let iy2 := min a.y2 b.y2
    if ix1 ≥ ix2 ∨ iy1 ≥ iy2 then 0
    else (ix2 - ix1) * (iy2 - iy1) / areaA

/-- `clip_to_bounds(bbox, width, height)`: clamp each coordinate into
`[0, width]` x `[0, height]` independently. -/
def clipToBounds (b : BBox) (width height : ℕ) : BBox :=
  mkBBox (min (width : ℚ) (max 0 b.x1)) (min (height : ℚ) (max 0 b.y1))
    (min (width : ℚ) (max 0 b.x2)) (min (height : ℚ) (max 0 b.y2))

/-- `inscribed_rect(bubble, ratio)`: rectangle centered on the bubble's
center with half-extents scaled by `ratio`. -/
def inscribedRect (bubble : BBox) (ratio : ℚ) : BBox :=
  let cx := (bubble.x1 + bubble.x2) / 2
  let cy := (bubble.y1 + bubble.y2) / 2
  let hw := bubble.width / 2
  let hh := bubble.height / 2
  mkBBox (cx - hw * ratio) (cy - hh * ratio) (cx + hw * ratio) (cy + hh * ratio)

/-- `find_bubble`'s loop state: current best bubble and best overlap. -/
def findBubbleAux (text : BBox) : List BBox → Option BBox × ℚ → Option BBox × ℚ
  | [], acc => acc
  | b :: rest, acc =>
    let overlap := calcOverlapRatio text b
    findBubbleAux text rest (if overlap > acc.2 then (some b, overlap) else acc)

/-- `find_bubble(text_bbox, bubbles)`: best-overlap bubble, returned only
when the best overlap strictly exceeds `OVERLAP_THRESHOLD`. -/
def findBubble (text : BBox) (bubbles : List BBox) : Option BBox :=
  let acc := findBubbleAux text bubbles (none, 0)
  if acc.2 > overlapThreshold then acc.1 else none

/-- `calc_render_bbox(bubble, inpaint_bbox)`. -/
def calcRenderBbox (bubble : Option BBox) (inpaintBbox : BBox) : BBox :=
  match bubble with
  | some b => inscribedRect b inscribedRatio
  | none => inpaintBbox

/-- `TextRegion` (pydantic model, `src/schemas/pipeline.py`): the five
declared fields.  Optional fields default to `none`. -/
structure TextRegion where
  index : ℤ
  text_bbox : BBox
  bubble_bbox : Option BBox := none
  fill_bbox : Option BBox := none
  render_bbox : Option BBox := none
  deriving DecidableEq, Repr

/-- A keyword-argument value passed to a pydantic model constructor. -/
inductive FieldVal where
  | intVal (n : ℤ)
  | bboxVal (b : BBox)
  | optVal (b : Option BBox)
  deriving DecidableEq, Repr

def findField (kwargs : List (String × FieldVal)) (name : String) : Option FieldVal :=
  (kwargs.find? (fun kv => kv.1 == name)).map (fun kv => kv.2)

/-- Coerce a keyword value into an `Optional[BBox]` field: an omitted
field takes the declared default `none`. -/
def fieldAsOptBBox : Option FieldVal → Except String (Option BBox)
  | none => .ok none
  | some (.bboxVal b) => .ok (some b)
  | some (.optVal ob) => .ok ob
  | some (.intVal _) => .error "type error"

/-- Pydantic construction `TextRegion(**kwargs)`: required fields `index`
and `text_bbox` must be present with the right type; keys that are not
declared fields (pydantic's default `extra` policy is ignore) are
silently discarded. -/
def textRegionOfKwargs (kwargs : List (String × FieldVal)) : Except String TextRegion :=
  match findField kwargs "index", findField kwargs "text_bbox" with
  | some (.intVal n), some (.bboxVal t) => do
    let bb ← fieldAsOptBBox (findField kwargs "bubble_bbox")
    let fb ← fieldAsOptBBox (findField kwargs "fill_bbox")
    let rb ← fieldAsOptBBox (findField kwargs "render_bbox")
    .ok ⟨n, t, bb, fb, rb⟩
  | _, _ => .error "missing required field"

/-- Default `padding_ratio` of `SolidFillBubbleCleaner`. -/
def solidFillPadding : ℚ := 2 / 10

/-- `SolidFillBubbleCleaner._calc_inpaint_bbox(text, bubble, img_size)`:
pad the text bbox by `padding_ratio` of its own extent, take the
coordinate-wise max/min against the inscribed rectangle (the intended
intersection), construct through the `BBox` validator, clip to the
image bounds. -/
def calcInpaintBbox (text bubble : BBox) (w h : ℕ) (paddingRat : ℚ) : BBox :=
  let inscribed := inscribedRect bubble inscribedRatio
  let padX := text.width * paddingRat
  let padY := text.height * paddingRat
  let bbox := mkBBox (max (text.x1 - padX) inscribed.x1) (max (text.y1 - padY) inscribed.y1)
    (min (text.x2 + padX) inscribed.x2) (min (text.y2 + padY) inscribed.y2)
  clipToBounds bbox w h

/-- Region bookkeeping of `SolidFillBubbleCleaner.clean`: regions without
a bubble are skipped; for the rest a new `TextRegion` is constructed with
keywords `index`, `text_bbox`, `bubble_bbox`, `inpaint_bbox`,
`render_bbox` (the pixel fill is irrelevant to the region list). -/
def cleanRegions (w h : ℕ) : List TextRegion → Except String (List TextRegion)
  | [] => .ok []
  | r :: rest =>
    match r.bubble_bbox with
    | none => cleanRegions w h rest
    | some bubble =>
      let ib := calcInpaintBbox r.text_bbox bubble w h solidFillPadding
      let rb := calcRenderBbox (some bubble) ib
      match textRegionOfKwargs [("index", .intVal r.index),
        ("text_bbox", .bboxVal r.text_bbox), ("bubble_bbox", .bboxVal bubble),
        ("inpaint_bbox", .bboxVal ib), ("render_bbox", .bboxVal rb)] with
      | .error e => .error e
      | .ok nr =>
        match cleanRegions w h rest with
        | .error e => .error e
        | .ok tail => .ok (nr :: tail)

/-- Region bookkeeping of `IOPaintRestorer.restore`: clip each text bbox
to the image, drop regions whose clipped box is degenerate, and construct
a new `TextRegion` with an `inpaint_bbox` keyword. -/
def restoreRegions (w h : ℕ) : List TextRegion → Except String (List TextRegion)
  | [] => .ok []
  | r :: rest =>
    let ib := clipToBounds r.text_bbox w h
    if ib.width ≤ 0 ∨ ib.height ≤ 0 then restoreRegions w h rest
    else
      let rb := calcRenderBbox r.bubble_bbox ib
      match textRegionOfKwargs [("index", .intVal r.index),
        ("text_bbox", .bboxVal r.text_bbox), ("bubble_bbox", .optVal r.bubble_bbox),
        ("inpaint_bbox", .bboxVal ib), ("render_bbox", .bboxVal rb)] with
      | .error e => .error e
      | .ok nr =>
        match restoreRegions w h rest with
        | .error e => .error e
        | .ok tail => .ok (nr :: tail)

/-- `RegionClassifier.classify`: route each region by `find_bubble`,
building fresh records (`bubble_bbox` set in the bubble bucket, left
`none` in the free bucket). -/
def classify (bubbles : List BBox) : List TextRegion → List TextRegion × List TextRegion
  | [] => ([], [])
  | r :: rest =>
    let tails := classify bubbles rest
    match findBubble r.text_bbox bubbles with
    | some b => (⟨r.index, r.text_bbox, some b, none, none⟩ :: tails.1, tails.2)
    | none => (tails.1, ⟨r.index, r.text_bbox, none, none, none⟩ :: tails.2)

/-- `Limits.WEEKLY_IMAGES` from `src/constants.py`. -/
def weeklyImages : ℤ := 20

/-- The Redis entry behind a quota key: counter value and remaining TTL
(`none` when the key has no expiry). -/
structure QuotaEntry where
  value : ℤ
  ttl : Option ℕ
  deriving DecidableEq, Repr

/-- A quota key's state; `none` models an absent key (`GET` yields nil,
read as `"0"` by the scripts). -/
def QuotaState : Type := Option QuotaEntry

def quotaGet (s : QuotaState) : ℤ :=
  match s with
  | none => 0
  | some e => e.value

/-- The TTL a `SET ... KEEPTTL` leaves on the key: unchanged for an
existing key, absent for a fresh key. -/
def quotaTTL (s : QuotaState) : Option ℕ :=
  match s with
  | none => none
  | some e => e.ttl

/-- `_seconds_until_next_monday`: `now` is split into its weekday
(`Monday = 0`) and the elapsed seconds of the current day. -/
def secondsUntilNextMonday (weekday secOfDay : ℕ) : ℕ :=
  max ((7 - weekday) * 86400 - secOfDay) 1

/-- `_CONSUME_SCRIPT` (atomic Lua script): returns the sentinel `-1` and
leaves the key untouched when `current + requested > limit`; otherwise
`INCRBY` then `EXPIRE ttlArg`. -/
def consumeScript (s : QuotaState) (requested limit : ℤ) (ttlArg : ℕ) : ℤ × QuotaState :=
  let current := quotaGet s
  if current + requested > limit then (-1, s)
  else (current + requested, some ⟨current + requested, some ttlArg⟩)

/-- `_REFUND_SCRIPT` (atomic Lua script): `SET key max(0, current - n)
KEEPTTL`.  `KEEPTTL` preserves the TTL of an existing key; a `SET` on an
absent key leaves it without expiry. -/
def refundScript (s : QuotaState) (refund : ℤ) : ℤ × QuotaState :=
  let current := quotaGet s
  let newVal := if current - refund < 0 then 0 else current - refund
  (newVal, some ⟨newVal, quotaTTL s⟩)

inductive QuotaError where
  | quotaExceeded
  | valueError
  deriving DecidableEq, Repr

/-- `check_and_consume_quota(hashed_ip, count)`: reject non-positive
counts, compute the TTL until next Monday, run the consume script, map
the sentinel to `QuotaExceededError`.  Returns the post-state together
with the error, mirroring that an exception leaves the key unchanged. -/
def checkAndConsumeQuota (s : QuotaState) (count : ℤ) (weekday secOfDay : ℕ) :
    QuotaState × Option QuotaError :=
  if count ≤ 0 then (s, some .valueError)
  else
    let ttl := secondsUntilNextMonday weekday secOfDay
    let r := consumeScript s count weeklyImages ttl
    if r.1 = -1 then (r.2, some .quotaExceeded) else (r.2, none)

/-- `refund_quota(hashed_ip, count)`: reject non-positive counts, run the
refund script. -/
def refundQuota (s : QuotaState) (count : ℤ) : QuotaState × Option QuotaError :=
  if count ≤ 0 then (s, some .valueError)
  else ((refundScript s count).2, none)

/-- One quota operation against a fixed key. -/
inductive QuotaOp where
  | consume (count : ℤ) (weekday secOfDay : ℕ)
  | refund (count : ℤ)

def applyQuotaOp (s : QuotaState) : QuotaOp → QuotaState
  | .consume n w sec => (checkAndConsumeQuota s n w sec).1
  | .refund n => (refundQuota s n).1

/-- The quota state reached from an absent key by a sequence of
operations. -/
def runQuotaOps (ops : List QuotaOp) : QuotaState :=
  ops.foldl applyQuotaOp none

/-- Translate record status (`TranslateStatus` literal type). -/
inductive TStatus where
  | pending
  | processing
  | completed
  | failed
  deriving DecidableEq, Repr

/-- The fields of the stored translate metadata that the worker's
`_update_status` touches. -/
structure TranslateMeta where
  status : TStatus
  resultUrl : Option String := none
  errorMessage : Option String := none
  completedAt : Option String := none
  deriving DecidableEq, Repr

/-- `_update_status` in `src/infra/workers/translate_job.py`: a missing
record is left alone; otherwise the status is overwritten
unconditionally, optional fields merged, and `completed_at` stamped on
`completed` (the write is `SET ... keepttl`). -/
def updateStatus (store : Option TranslateMeta) (status : TStatus)
    (resultUrl errorMessage : Option String) (nowIso : String) : Option TranslateMeta :=
  match store with
  | none => none
  | some m =>
    let m1 := { m with status := status }
    let m2 := match resultUrl with
      | some u => { m1 with resultUrl := some u }
      | none => m1
    let m3 := match errorMessage with
      | some e => { m2 with errorMessage := some e }
      | none => m2
    let m4 := if status = .completed then { m3 with completedAt := some nowIso } else m3
    some m4

/-- The store states traversed by `translate_job`: the task starts with
an unconditional `processing` update, then either fails on a missing
image, completes, or fails with the raised message.  `pipelineError`
models the outcome of `translate_image`. -/
def translateJob (store : Option TranslateMeta) (imageFound : Bool)
    (pipelineError : Option String) (resultUrl nowIso : String) :
    List (Option TranslateMeta) :=
  let s1 := updateStatus store .processing none none nowIso
  if !imageFound then
    [s1, updateStatus s1 .failed none (some "image not found") nowIso]
  else
    match pipelineError with
    | none => [s1, updateStatus s1 .completed (some resultUrl) none nowIso]
    | some e => [s1, updateStatus s1 .failed none (some e) nowIso]

/-- `BatchStatus` literal type from `src/services/batch.py`. -/
inductive BatchStatus where
  | processing
  | completed
  | partialFailure
  | failed
  deriving DecidableEq, Repr

/-- One child entry of a stored batch. -/
structure BatchImageEntry where
  orderIndex : ℕ
  uploadId : String
  translateId : String
  status : TStatus
  originalUrl : Option String := none
  resultUrl : Option String := none
  errorMessage : Option String := none
  deriving DecidableEq, Repr

/-- `_compute_batch_status(images)`: Python builds the *set* of child
statuses; intersecting with the pending/processing pair, then comparing
against the singleton sets.  Over a list, set-intersection-nonempty is
`any`, and singleton-set equality is nonemptiness plus `all`. -/
def computeBatchStatus (images : List BatchImageEntry) : BatchStatus :=
  if images.any (fun i => i.status = .pending ∨ i.status = .processing) then .processing
  else if !images.isEmpty && images.all (fun i => i.status = .completed) then .completed
  else if !images.isEmpty && images.all (fun i => i.status = .failed) then .failed
  else .partialFailure

structure BatchMetadata where
  batchId : String
  sourceLanguage : String
  targetLanguage : String
  images : List BatchImageEntry
  createdAt : String
  deriving DecidableEq, Repr

/-- The fields of a `TranslateResponse` that `get_batch` copies into a
child entry. -/
structure TranslateView where
  status : TStatus
  originalUrl : Option String := none
  resultUrl : Option String := none
  errorMessage : Option String := none
  deriving DecidableEq, Repr

structure BatchResponse where
  batchId : String
  status : BatchStatus
  images : List BatchImageEntry
  sourceLanguage : String
  targetLanguage : String
  createdAt : String
  deriving DecidableEq, Repr

/-- The synthetic error message for a child whose translate record is
gone (source text is Korean: "translate metadata not found"). -/
def notFoundMessage : String := "translate metadata not found"

/-- `get_batch`'s per-child refresh: a missing record yields the stored
entry marked `failed` with the not-found message, an existing record
replaces status/urls/error wholesale. -/
def refreshEntry (lookup : String → Option TranslateView) (img : BatchImageEntry) :
    BatchImageEntry :=
  match lookup img.translateId with
  | none => { img with status := .failed, errorMessage := some notFoundMessage }
  | some t =>
    ⟨img.orderIndex, img.uploadId, img.translateId, t.status,
      t.originalUrl, t.resultUrl, t.errorMessage⟩

/-- `get_batch(batch_id)`: missing batch gives `none`; otherwise refresh
every child from its current translate record and derive the batch
status dynamically. -/
def getBatch (stored : Option BatchMetadata) (lookup : String → Option TranslateView) :
    Option BatchResponse :=
  match stored with
  | none => none
  | some md =>
    let updated := md.images.map (refreshEntry lookup)
    some ⟨md.batchId, computeBatchStatus updated, updated,
      md.sourceLanguage, md.targetLanguage, md.createdAt⟩

/-- `TranslationResult` (pydantic): an index together with the translated
string. -/
structure TranslationResult where
  index : ℤ
  translated : String
  deriving DecidableEq, Repr

/-- `_crop_to_parts`' index bookkeeping: the original indices of the
bboxes that survive the `is_valid` filter, in order.  (The actual PNG
crops are irrelevant to the mapping.) -/
def validIndices (bboxes : List BBox) : List ℕ :=
  (bboxes.enum.filter (fun p => p.2.isValid)).map (fun p => p.1)

/-- The accumulation loop of `_map_results`: items that fail pydantic
validation are dropped (`none`), as are items whose index is outside
`[0, K)`; surviving items are remapped through `original_indices`. -/
def mapResultsLoop (origIdx : List ℕ) : List (Option TranslationResult) → List TranslationResult
  | [] => []
  | none :: rest => mapResultsLoop origIdx rest
  | some p :: rest =>
    if 0 ≤ p.index ∧ p.index.toNat < origIdx.length then
      ⟨(origIdx.getD p.index.toNat 0 : ℕ), p.translated⟩ :: mapResultsLoop origIdx rest
    else mapResultsLoop origIdx rest

/-- `_map_results`: collect, then `results.sort(key = index)`. -/
def mapResults (raw : List (Option TranslationResult)) (origIdx : List ℕ) :
    List TranslationResult :=
  (mapResultsLoop origIdx raw).mergeSort (fun a b => a.index ≤ b.index)

/-- `GeminiTranslation.translate`: an empty bbox list (or a bbox list
with no valid crop) returns `[]` without calling the backend; otherwise
the raw backend items are mapped through `_map_results`.  The boolean
records whether the backend was called. -/
def geminiTranslate (bboxes : List BBox) (raw : List (Option TranslationResult)) :
    List TranslationResult × Bool :=
  if bboxes.isEmpty then ([], false)
  else
    let origIdx := validIndices bboxes
    if origIdx.isEmpty then ([], false)
    else (mapResults raw origIdx, true)

/-- The error raised by `HFSpaceDetection.detect`: either the
`RuntimeError` wrapping the last underlying cause after the retry loop
is exhausted, or the pydantic `ValidationError` on a schema mismatch. -/
inductive DetectError where
  | runtimeError (lastCause : String)
  | validationError
  deriving DecidableEq, Repr

/-- The retry loop of `_call_with_retry`, iterating over the remaining
attempt numbers (`range(1 + max_retries)`), with the last seen error.
Returns the outcome, the number of `client.predict` calls made, and the
list of back-off sleeps (`2 ** attempt`, skipped after the final
attempt). -/
def runAttempts {α : Type} (backend : ℕ → Except String α) (lastErr : String) :
    List ℕ → Except DetectError α × ℕ × List ℕ
  | [] => (.error (.runtimeError lastErr), 0, [])
  | a :: rest =>
    match backend a with
    | .ok v => (.ok v, 1, [])
    | .error e =>
      let r := runAttempts backend e rest
      (r.1, r.2.1 + 1, if rest.isEmpty then r.2.2 else (2 ^ a) :: r.2.2)

/-- `_call_with_retry(client, image_path, max_retries)`. -/
def callWithRetry {α : Type} (backend : ℕ → Except String α) (maxRetries : ℕ) :
    Except DetectError α × ℕ × List ℕ :=
  runAttempts backend "" (List.range (1 + maxRetries))

/-- `HFSpaceDetection.detect`: run the retry loop, then validate the raw
response against the schema once, with no further retry. -/
def detect {α : Type} (backend : ℕ → Except String α) (validate : α → Bool)
    (maxRetries : ℕ) : Except DetectError α × ℕ × List ℕ :=
  let r := callWithRetry backend maxRetries
  match r.1 with
  | .error e => (.error e, r.2.1, r.2.2)
  | .ok raw => (if validate raw then .ok raw else .error .validationError, r.2.1, r.2.2)

/-- `EraseRequest` in `src/services/erase.py`: the only declared fields
are `translate_id` and `mask_image`. -/
structure EraseRequest where
  translateId : String
  maskImage : String
  deriving DecidableEq, Repr

/-- Modelled from the spec: the request-body schema base (`BaseSchema`,
`src/schemas/base.py`, not present under `src/`) maps snake_case fields
to camelCase wire keys, and pydantic's default `extra` policy ignores
unknown keys.  Parsing an `/erase` body therefore reads `translateId`
and `maskImage` and discards everything else (such as `sourceImage`). -/
def parseEraseRequest (body : List (String × String)) : Option EraseRequest :=
  match (body.find? (fun kv => kv.1 == "translateId")),
      (body.find? (fun kv => kv.1 == "maskImage")) with
  | some t, some m => some ⟨t.2, m.2⟩
  | _, _ => none

def isHexLowerDigit (c : Char) : Bool :=
  ('a' ≤ c && c ≤ 'f') || ('0' ≤ c && c ≤ '9')

/-- `TranslateId.PATTERN`: the regex `tr_` followed by exactly 8
lowercase-hex characters. -/
def isValidTranslateId (s : String) : Bool :=
  match s.toList with
  | 't' :: 'r' :: '_' :: rest => rest.length == 8 && rest.all isHexLowerDigit
  | _ => false

inductive EraseCode where
  | invalidTranslateId
  | translateNotFound
  | translateNotCompleted
  | resultImageNotFound
  | inpaintingFailed
  deriving DecidableEq, Repr

/-- `_get_result_image_path(translate_id)`: format check, record lookup,
completed-status check, result-file existence check, in that order. -/
def getResultImagePath (records : String → Option TranslateMeta)
    (fileExists : String → Bool) (tid : String) : Except EraseCode String :=
  if !isValidTranslateId tid then .error .invalidTranslateId
  else
    match records tid with
    | none => .error .translateNotFound
    | some m =>
      if m.status ≠ .completed then .error .translateNotCompleted
      else
        let rel := "result/" ++ tid ++ "_result.png"
        if !fileExists rel then .error .resultImageNotFound
        else .ok rel

/-- `erase_region(request)` up to the choice of the working image: the
function always resolves the result image through
`_get_result_image_path` — there is no alternate source-image path. -/
def eraseRegionSource (records : String → Option TranslateMeta)
    (fileExists : String → Bool) (req : EraseRequest) : Except EraseCode String :=
  getResultImagePath records fileExists req.translateId

/-! ## Theorems -/

/-- C7: an erase request carrying a `sourceImage` does **not** skip the
record and existence checks.  `EraseRequest` declares no `source_image`
field, so parsing the wire body discards the supplied `sourceImage`, and
`erase_region` unconditionally resolves the result image through
`_get_result_image_path`: with no stored record the call fails with
`TRANSLATE_NOT_FOUND` (the repository's own route tests expect the
checks to be bypassed and a 200 response instead), and with a
non-completed record it fails with `TRANSLATE_NOT_COMPLETED`. -/
theorem erase_ignores_source_image :
    parseEraseRequest [("translateId", "tr_a1b2c3d4"), ("maskImage", "mask-png-b64"),
        ("sourceImage", "source-png-b64")] = some ⟨"tr_a1b2c3d4", "mask-png-b64"⟩ ∧
    eraseRegionSource (fun _ => none) (fun _ => true) ⟨"tr_a1b2c3d4", "mask-png-b64"⟩
      = .error .translateNotFound ∧
    eraseRegionSource (fun _ => some ⟨.pending, none, none, none⟩) (fun _ => true)
        ⟨"tr_a1b2c3d4", "mask-png-b64"⟩ = .error .translateNotCompleted :=
  ⟨rfl, rfl, rfl⟩

/-- C1 counterexample: a record already in the terminal state
`completed` is overwritten to `processing` by the worker's unconditional
status update — exactly the update `translate_job` performs at task
start, as the trace's first store state shows. -/
theorem update_status_overwrites_completed :
    updateStatus (some ⟨.completed, none, none, none⟩) .processing none none
        "2026-01-01T00:00:00Z" = some ⟨.processing, none, none, none⟩ ∧
    (translateJob (some ⟨.completed, none, none, none⟩) true none "url"
        "2026-01-01T00:00:00Z").head? = some (some ⟨.processing, none, none, none⟩) ∧
    TStatus.processing ≠ TStatus.completed :=
  ⟨rfl, rfl, by decide⟩

/-- C1 amended: `_update_status` is unconditional — a missing record is
the only thing it leaves alone; on an existing record it always
overwrites the status with the given value (terminal states are not
sticky), and `translate_job` begins with exactly this `processing`
update regardless of the record's current state. -/
theorem update_status_unconditional :
    (∀ st ru em now, updateStatus none st ru em now = none) ∧
    (∀ m st ru em now,
       (updateStatus (some m) st ru em now).map TranslateMeta.status = some st) ∧
    (∀ m found perr ru now,
       (translateJob (some m) found perr ru now).head? =
         some (updateStatus (some m) .processing none none now)) := by
  refine ⟨fun _ _ _ _ => rfl, ?_, ?_⟩
  · intro m st ru em now
    cases ru <;> cases em <;> by_cases h : st = TStatus.completed <;>
      simp [updateStatus, h]
  · intro m found perr ru now
    cases found <;> cases perr <;> rfl

/-- C6 counterexample: with the default `max_retries = 3` the retry loop
performs `1 + max_retries = 4` backend calls, not "up to 3 attempts":
a backend failing on the first three attempts still succeeds on the
fourth, after the full 1 s / 2 s / 4 s back-off sequence. -/
theorem detect_four_attempts :
    callWithRetry (fun a => if a < 3 then .error "api unavailable" else .ok (0 : ℕ)) 3
      = (.ok 0, 4, [1, 2, 4]) ∧ ¬(4 ≤ 3) :=
  ⟨rfl, by decide⟩

/-- The pydantic construction performed by `SolidFillBubbleCleaner.clean`:
the `inpaint_bbox` keyword names no declared field and is dropped, and
the undeclared-but-absent `fill_bbox` takes its default `none`. -/
theorem textRegionOfKwargs_clean (n : ℤ) (t b ib rb : BBox) :
    textRegionOfKwargs [("index", .intVal n), ("text_bbox", .bboxVal t),
        ("bubble_bbox", .bboxVal b), ("inpaint_bbox", .bboxVal ib),
        ("render_bbox", .bboxVal rb)] = .ok ⟨n, t, some b, none, some rb⟩ :=
  rfl

/-- The pydantic construction performed by `IOPaintRestorer.restore`. -/
theorem textRegionOfKwargs_restore (n : ℤ) (t : BBox) (ob : Option BBox) (ib rb : BBox) :
    textRegionOfKwargs [("index", .intVal n), ("text_bbox", .bboxVal t),
        ("bubble_bbox", .optVal ob), ("inpaint_bbox", .bboxVal ib),
        ("render_bbox", .bboxVal rb)] = .ok ⟨n, t, ob, none, some rb⟩ :=
  rfl

theorem cleanRegions_fill_none (w h : ℕ) :
    ∀ (regions out : List TextRegion), cleanRegions w h regions = .ok out →
      ∀ r ∈ out, r.fill_bbox = none := by
  intro regions
  induction regions with
  | nil =>
    intro out hout
    simp only [cleanRegions] at hout
    cases hout
    simp
  | cons r rest ih =>
    intro out hout
    cases hb : r.bubble_bbox with
    | none =>
      rw [cleanRegions, hb] at hout
      exact ih out hout
    | some bubble =>
      rw [cleanRegions, hb] at hout
      simp only [textRegionOfKwargs_clean] at hout
      cases htail : cleanRegions w h rest with
      | error e => rw [htail] at hout; cases hout
      | ok tail =>
        rw [htail] at hout
        cases hout
        intro x hx
        rcases List.mem_cons.mp hx with hhd | htl
        · subst hhd; rfl
        · exact ih tail htail x htl

theorem restoreRegions_fill_none (w h : ℕ) :
    ∀ (regions out : List TextRegion), restoreRegions w h regions = .ok out →
      ∀ r ∈ out, r.fill_bbox = none := by
  intro regions
  induction regions with
  | nil =>
    intro out hout
    simp only [restoreRegions] at hout
    cases hout
    simp
  | cons r rest ih =>
    intro out hout
    rw [restoreRegions] at hout
    split at hout
    · exact ih out hout
    · simp only [textRegionOfKwargs_restore] at hout
      cases htail : restoreRegions w h rest with
      | error e => rw [htail] at hout; cases hout
      | ok tail =>
        rw [htail] at hout
        cases hout
        intro x hx
        rcases List.mem_cons.mp hx with hhd | htl
        · subst hhd; rfl
        · exact ih tail htail x htl

/-- C10: every region returned by the bubble cleaner's and the
background restorer's region bookkeeping has `fill_bbox = none` — the
`inpaint_bbox` keyword both pass to the `TextRegion` constructor is not
a declared field and is silently discarded. -/
theorem inpaint_kwarg_discarded :
    (∀ (w h : ℕ) (regions out : List TextRegion),
       cleanRegions w h regions = .ok out → ∀ r ∈ out, r.fill_bbox = none) ∧
    (∀ (w h : ℕ) (regions out : List TextRegion),
       restoreRegions w h regions = .ok out → ∀ r ∈ out, r.fill_bbox = none) :=
  ⟨cleanRegions_fill_none, restoreRegions_fill_none⟩

/-- C10 witness: the cleaner on a concrete one-region input. -/
theorem inpaint_kwarg_discarded_witness :
    ∀ r ∈ [(⟨0, ⟨1, 1, 3, 3⟩, some ⟨0, 0, 4, 4⟩, none,
        some (calcRenderBbox (some ⟨0, 0, 4, 4⟩)
          (calcInpaintBbox ⟨1, 1, 3, 3⟩ ⟨0, 0, 4, 4⟩ 10 10 solidFillPadding))⟩ : TextRegion)],
      r.fill_bbox = none :=
  inpaint_kwarg_discarded.1 10 10 [⟨0, ⟨1, 1, 3, 3⟩, some ⟨0, 0, 4, 4⟩, none, none⟩] _ rfl

/-- The validator always produces a normalized bbox. -/
theorem mkBBox_normalized (a b c d : ℚ) : (mkBBox a b c d).Normalized := by
  unfold mkBBox BBox.Normalized
  split_ifs with h1 h2 h2 <;>
    refine ⟨le_max_left 0 _, ?_, le_max_left 0 _, ?_⟩ <;>
    exact max_le_max le_rfl (by linarith)

/-- On already-normalized coordinates the validator is the identity. -/
theorem mkBBox_of_normalized (a b c d : ℚ) (h0a : 0 ≤ a) (hac : a ≤ c)
    (h0b : 0 ≤ b) (hbd : b ≤ d) : mkBBox a b c d = ⟨a, b, c, d⟩ := by
  unfold mkBBox
  rw [if_neg (by simpa using hac), if_neg (by simpa using hbd)]
  simp only
  rw [max_eq_right h0a, max_eq_right h0b,
    max_eq_right (le_trans h0a hac), max_eq_right (le_trans h0b hbd)]

/-- C9: `BBox.from_list` on a 4-element finite-float list yields a
normalized bbox (coordinates auto-sorted, negatives clamped to 0);
wrong arity and NaN/Inf coordinates raise `ValueError`; on inputs that
are already normalized the `from_list` / `to_list` round-trip is the
identity. -/
theorem bbox_from_list_correct :
    (∀ qa qb qc qd : ℚ,
       fromList [.fin qa, .fin qb, .fin qc, .fin qd] = .ok (mkBBox qa qb qc qd) ∧
       (mkBBox qa qb qc qd).Normalized) ∧
    (∀ coords : List PyFloat, coords.length ≠ 4 → fromList coords = .error .arityError) ∧
    (∀ coords : List PyFloat, coords.length = 4 →
       (∃ c ∈ coords, c.isFinite = false) → fromList coords = .error .nonFiniteError) ∧
    (∀ qa qb qc qd : ℚ, 0 ≤ qa → qa ≤ qc → 0 ≤ qb → qb ≤ qd →
       (fromList [.fin qa, .fin qb, .fin qc, .fin qd]).map BBox.toList
         = .ok [qa, qb, qc, qd]) := by
  refine ⟨fun qa qb qc qd => ⟨rfl, mkBBox_normalized qa qb qc qd⟩, ?_, ?_, ?_⟩
  · intro coords h
    rcases coords with _ | ⟨a, _ | ⟨b, _ | ⟨c, _ | ⟨d, _ | ⟨e, rest⟩⟩⟩⟩⟩ <;>
      first
        | rfl
        | exact absurd rfl h
  · intro coords hlen hex
    rcases coords with _ | ⟨a, _ | ⟨b, _ | ⟨c, _ | ⟨d, _ | ⟨e, rest⟩⟩⟩⟩⟩ <;>
      simp_all [fromList]
    rcases a <;> rcases b <;> rcases c <;> rcases d <;>
      simp_all [PyFloat.isFinite, fromList]
  · intro qa qb qc qd h0a hac h0b hbd
    simp [fromList, mkBBox_of_normalized qa qb qc qd h0a hac h0b hbd, BBox.toList,
      Except.map]

/-- C9 witness: a concrete already-normalized input round-trips. -/
theorem bbox_from_list_correct_witness :
    (fromList [.fin 1, .fin 2, .fin 3, .fin 4]).map BBox.toList
      = .ok [(1 : ℚ), 2, 3, 4] :=
  bbox_from_list_correct.2.2.2 1 2 3 4 (by norm_num) (by norm_num) (by norm_num)
    (by norm_num)

/-- Each quota operation keeps the counter inside `[0, WEEKLY_IMAGES]`. -/
theorem applyQuotaOp_invariant (s : QuotaState) (op : QuotaOp)
    (h : 0 ≤ quotaGet s ∧ quotaGet s ≤ weeklyImages) :
    0 ≤ quotaGet (applyQuotaOp s op) ∧
      quotaGet (applyQuotaOp s op) ≤ weeklyImages := by
  obtain ⟨h0, h1⟩ := h
  cases op with
  | consume n w sec =>
    simp only [applyQuotaOp]
    unfold checkAndConsumeQuota consumeScript
    simp only
    split_ifs with hn hover hsent <;> simp_all [quotaGet] <;> omega
  | refund n =>
    simp only [applyQuotaOp]
    unfold refundQuota refundScript
    simp only
    split_ifs with hn hneg <;> simp_all [quotaGet] <;> omega

theorem runQuotaOps_invariant (ops : List QuotaOp) :
    0 ≤ quotaGet (runQuotaOps ops) ∧ quotaGet (runQuotaOps ops) ≤ weeklyImages := by
  unfold runQuotaOps
  induction ops using List.reverseRecOn with
  | nil => simp [quotaGet, weeklyImages]
  | append_singleton l op ih =>
    rw [List.foldl_append, List.foldl_cons, List.foldl_nil]
    exact applyQuotaOp_invariant _ op ih

/-- C2: `check_and_consume` with `current + n ≤ WEEKLY_IMAGES` atomically
increases the counter by exactly `n` and sets its TTL to the seconds
until next Monday 00:00 UTC; otherwise it leaves the counter untouched
and raises `QuotaExceededError`.  `refund` sets the counter to
`max(0, current − n)` preserving the TTL.  Both reject `n ≤ 0`, and
every state reachable from an absent key keeps the counter inside
`[0, WEEKLY_IMAGES]`. -/
theorem quota_ops_correct :
    (∀ (s : QuotaState) (n : ℤ) (w sec : ℕ), 0 ≤ quotaGet s → 0 < n →
       quotaGet s + n ≤ weeklyImages →
       checkAndConsumeQuota s n w sec =
         (some ⟨quotaGet s + n, some (secondsUntilNextMonday w sec)⟩, none)) ∧
    (∀ (s : QuotaState) (n : ℤ) (w sec : ℕ), 0 < n →
       weeklyImages < quotaGet s + n →
       checkAndConsumeQuota s n w sec = (s, some .quotaExceeded)) ∧
    (∀ (s : QuotaState) (n : ℤ), 0 < n →
       refundQuota s n = (some ⟨max 0 (quotaGet s - n), quotaTTL s⟩, none)) ∧
    (∀ (s : QuotaState) (n : ℤ) (w sec : ℕ), n ≤ 0 →
       checkAndConsumeQuota s n w sec = (s, some .valueError) ∧
       refundQuota s n = (s, some .valueError)) ∧
    (∀ ops : List QuotaOp,
       0 ≤ quotaGet (runQuotaOps ops) ∧ quotaGet (runQuotaOps ops) ≤ weeklyImages) := by
  refine ⟨?_, ?_, ?_, ?_, runQuotaOps_invariant⟩
  · intro s n w sec h0 hn hfit
    unfold checkAndConsumeQuota consumeScript
    simp only
    split_ifs with h1 h2 h3 <;> first | omega | rfl
  · intro s n w sec hn hover
    unfold checkAndConsumeQuota consumeScript
    simp only
    split_ifs with h1 h2 <;> first | omega | rfl
  · intro s n hn
    unfold refundQuota refundScript
    simp only
    split_ifs with h1 h2 <;>
      first
        | omega
        | (congr 3; omega)
  · intro s n w sec hn
    constructor
    · unfold checkAndConsumeQuota
      rw [if_pos hn]
    · unfold refundQuota
      rw [if_pos hn]

/-- C2 witness: consuming 1 from an absent counter on a Wednesday noon. -/
theorem quota_ops_correct_witness :
    checkAndConsumeQuota none 1 2 43200 =
      (some ⟨quotaGet none + 1, some (secondsUntilNextMonday 2 43200)⟩, none) :=
  quota_ops_correct.1 none 1 2 43200 (by decide) (by decide) (by decide)

/-- The derivation rule of `_compute_batch_status`, characterized over a
non-empty child list. -/
theorem computeBatchStatus_spec (l : List BatchImageEntry) (h : l ≠ []) :
    (computeBatchStatus l = .processing ↔
       ∃ e ∈ l, e.status = .pending ∨ e.status = .processing) ∧
    (computeBatchStatus l = .completed ↔ ∀ e ∈ l, e.status = .completed) ∧
    (computeBatchStatus l = .failed ↔ ∀ e ∈ l, e.status = .failed) ∧
    (computeBatchStatus l = .partialFailure ↔
       (¬ ∃ e ∈ l, e.status = .pending ∨ e.status = .processing) ∧
       ¬(∀ e ∈ l, e.status = .completed) ∧ ¬(∀ e ∈ l, e.status = .failed)) := by
  obtain ⟨x, hx⟩ := List.exists_mem_of_ne_nil l h
  unfold computeBatchStatus
  have hne : l.isEmpty = false := by
    rw [List.isEmpty_eq_false]
    exact h
  rw [hne]
  simp only [Bool.not_false, Bool.true_and]
  split_ifs with hA hB hC
  · simp only [List.any_eq_true, decide_eq_true_eq] at hA
    obtain ⟨e, he, hor⟩ := hA
    refine ⟨⟨fun _ => ⟨e, he, hor⟩, fun _ => rfl⟩, ?_, ?_, ?_⟩
    · refine ⟨(fun hk => nomatch hk), fun hall => ?_⟩
      have := hall e he
      rcases hor with h1 | h1 <;> rw [h1] at this <;> cases this
    · refine ⟨(fun hk => nomatch hk), fun hall => ?_⟩
      have := hall e he
      rcases hor with h1 | h1 <;> rw [h1] at this <;> cases this
    · exact ⟨(fun hk => nomatch hk), fun hk => absurd ⟨e, he, hor⟩ hk.1⟩
  · simp only [List.any_eq_true, decide_eq_true_eq] at hA
    simp only [List.all_eq_true, decide_eq_true_eq] at hB
    have hxf : ¬ x.status = .failed := by
      rw [hB x hx]
      intro hk
      cases hk
    refine ⟨⟨(fun hk => nomatch hk), fun hp => absurd hp hA⟩,
      ⟨fun _ => hB, fun _ => rfl⟩,
      ⟨(fun hk => nomatch hk), fun hall => absurd (hall x hx) hxf⟩,
      ⟨(fun hk => nomatch hk), fun hk => absurd hB hk.2.1⟩⟩
  · simp only [List.any_eq_true, decide_eq_true_eq] at hA
    simp only [List.all_eq_true, decide_eq_true_eq] at hB hC
    refine ⟨⟨(fun hk => nomatch hk), fun hp => absurd hp hA⟩,
      ⟨(fun hk => nomatch hk), fun hall => absurd hall hB⟩,
      ⟨fun _ => hC, fun _ => rfl⟩,
      ⟨(fun hk => nomatch hk), fun hk => absurd hC hk.2.2⟩⟩
  · simp only [List.any_eq_true, decide_eq_true_eq] at hA
    simp only [List.all_eq_true, decide_eq_true_eq] at hB hC
    exact ⟨⟨(fun hk => nomatch hk), fun hp => absurd hp hA⟩,
      ⟨(fun hk => nomatch hk), fun hall => absurd hall hB⟩,
      ⟨(fun hk => nomatch hk), fun hall => absurd hall hC⟩,
      ⟨fun _ => ⟨hA, hB, hC⟩, fun _ => rfl⟩⟩

/-- C4: on a stored batch with a non-empty child list, `get_batch`
refreshes every child from its current translate record — a missing
record becomes a synthetic `failed` entry with the not-found error
message — and derives the batch status as: `processing` if any child is
pending or processing, else `completed` if all children completed, else
`failed` if all failed, else `partial_failure`. -/
theorem get_batch_status_correct (md : BatchMetadata)
    (lookup : String → Option TranslateView) (h : md.images ≠ []) :
    ∃ resp, getBatch (some md) lookup = some resp ∧
      resp.images.map BatchImageEntry.status = md.images.map (fun img =>
        match lookup img.translateId with
        | none => TStatus.failed
        | some t => t.status) ∧
      (∀ e ∈ resp.images, lookup e.translateId = none →
        e.status = .failed ∧ e.errorMessage = some notFoundMessage) ∧
      ((resp.status = .processing ↔
         ∃ e ∈ resp.images, e.status = .pending ∨ e.status = .processing) ∧
       (resp.status = .completed ↔ ∀ e ∈ resp.images, e.status = .completed) ∧
       (resp.status = .failed ↔ ∀ e ∈ resp.images, e.status = .failed) ∧
       (resp.status = .partialFailure ↔
         (¬ ∃ e ∈ resp.images, e.status = .pending ∨ e.status = .processing) ∧
         ¬(∀ e ∈ resp.images, e.status = .completed) ∧
         ¬(∀ e ∈ resp.images, e.status = .failed))) := by
  refine ⟨_, rfl, ?_, ?_, ?_⟩
  · simp only [List.map_map]
    refine List.map_congr_left (fun img _ => ?_)
    simp only [Function.comp_apply, refreshEntry]
    cases lookup img.translateId <;> rfl
  · intro e he hmiss
    simp only [List.mem_map] at he
    obtain ⟨img, -, himg⟩ := he
    subst himg
    unfold refreshEntry at hmiss ⊢
    cases hl : lookup img.translateId with
    | none => simp
    | some t => rw [hl] at hmiss; simp at hmiss; rw [hl] at hmiss; cases hmiss
  · have hne : md.images.map (refreshEntry lookup) ≠ [] := by
      intro hk
      exact h (List.map_eq_nil_iff.mp hk)
    exact computeBatchStatus_spec (md.images.map (refreshEntry lookup)) hne

/-- C4 witness: a one-child batch whose translate record is gone is
derived `failed` with the synthetic message. -/
theorem get_batch_status_correct_witness :
    ∃ resp, getBatch
        (some ⟨"batch_00000001", "ko", "en",
          [⟨0, "upload_1", "tr_00000001", .pending, none, none, none⟩], "t"⟩)
        (fun _ => none) = some resp ∧
      resp.images.map BatchImageEntry.status =
        ([⟨0, "upload_1", "tr_00000001", TStatus.pending, none, none, none⟩] :
            List BatchImageEntry).map
          (fun img => match (fun (_ : String) => (none : Option TranslateView))
              img.translateId with
            | none => TStatus.failed
            | some t => t.status) ∧
      (∀ e ∈ resp.images, (fun (_ : String) => (none : Option TranslateView)) e.translateId = none →
        e.status = .failed ∧ e.errorMessage = some notFoundMessage) ∧
      ((resp.status = .processing ↔
         ∃ e ∈ resp.images, e.status = .pending ∨ e.status = .processing) ∧
       (resp.status = .completed ↔ ∀ e ∈ resp.images, e.status = .completed) ∧
       (resp.status = .failed ↔ ∀ e ∈ resp.images, e.status = .failed) ∧
       (resp.status = .partialFailure ↔
         (¬ ∃ e ∈ resp.images, e.status = .pending ∨ e.status = .processing) ∧
         ¬(∀ e ∈ resp.images, e.status = .completed) ∧
         ¬(∀ e ∈ resp.images, e.status = .failed))) :=
  get_batch_status_correct
    ⟨"batch_00000001", "ko", "en",
      [⟨0, "upload_1", "tr_00000001", .pending, none, none, none⟩], "t"⟩
    (fun _ => none) (by simp)

theorem runAttempts_calls_le {α : Type} (backend : ℕ → Except String α) :
    ∀ (l : List ℕ) (lastErr : String),
      (runAttempts backend lastErr l).2.1 ≤ l.length := by
  intro l
  induction l with
  | nil => intro lastErr; simp [runAttempts]
  | cons a rest ih =>
    intro lastErr
    rw [runAttempts]
    cases hb : backend a with
    | ok v => simp
    | error e =>
      simp only [List.length_cons]
      exact Nat.succ_le_succ (ih e)

theorem runAttempts_calls_pos {α : Type} (backend : ℕ → Except String α)
    (a : ℕ) (l : List ℕ) (lastErr : String) :
    1 ≤ (runAttempts backend lastErr (a :: l)).2.1 := by
  rw [runAttempts]
  cases hb : backend a with
  | ok v => simp
  | error e => simp

theorem runAttempts_sleeps {α : Type} (backend : ℕ → Except String α) :
    ∀ (l : List ℕ) (lastErr : String),
      (runAttempts backend lastErr l).2.2 =
        (l.take ((runAttempts backend lastErr l).2.1 - 1)).map (fun a => 2 ^ a) := by
  intro l
  induction l with
  | nil => intro lastErr; simp [runAttempts]
  | cons a rest ih =>
    intro lastErr
    rw [runAttempts]
    cases hb : backend a with
    | ok v => simp
    | error e =>
      simp only
      cases rest with
      | nil => simp [runAttempts]
      | cons b tl =>
        have hpos := runAttempts_calls_pos backend b tl e
        obtain ⟨k, hk⟩ := Nat.exists_eq_add_of_le hpos
        simp only [List.isEmpty_cons, Bool.false_eq_true, if_false, hk]
        have h1 : 1 + k + 1 - 1 = k + 1 := by omega
        rw [h1, List.take_succ_cons, List.map_cons]
        have h2 := ih e
        have h3 : 1 + k - 1 = k := by omega
        rw [hk, h3] at h2
        rw [h2]

theorem runAttempts_all_fail {α : Type} (backend : ℕ → Except String α) :
    ∀ (l : List ℕ) (lastErr : String),
      (∀ a ∈ l, ∃ e, backend a = .error e) → l ≠ [] →
      ∃ a e, l.getLast? = some a ∧ backend a = .error e ∧
        (runAttempts backend lastErr l).1 = .error (.runtimeError e) ∧
        (runAttempts backend lastErr l).2.1 = l.length := by
  intro l
  induction l with
  | nil => intro lastErr _ hne; exact absurd rfl hne
  | cons a rest ih =>
    intro lastErr hfail _
    obtain ⟨e0, he0⟩ := hfail a (List.mem_cons_self a rest)
    cases rest with
    | nil =>
      refine ⟨a, e0, rfl, he0, ?_, ?_⟩ <;> rw [runAttempts, he0] <;> simp [runAttempts]
    | cons b tl =>
      obtain ⟨x, e, hlast, hbx, hres, hcalls⟩ :=
        ih e0 (fun y hy => hfail y (List.mem_cons_of_mem a hy)) (by simp)
      refine ⟨x, e, ?_, hbx, ?_, ?_⟩
      · rwa [List.getLast?_cons_cons]
      · rw [runAttempts, he0]
        simpa using hres
      · rw [runAttempts, he0]
        simp [hcalls]

/-- C6 amended: the retry loop makes up to `1 + max_retries` backend
calls (4 with the default 3); between consecutive attempts it sleeps
`2 ^ attempt` seconds (the 1 s / 2 s / 4 s pattern, with no sleep after
the final attempt); when every attempt fails it raises a
`RuntimeError`-class error carrying the last underlying cause; and a
schema-validation failure after a successful call is raised immediately
without changing the number of backend calls. -/
theorem detect_retry_correct :
    (∀ (α : Type) (backend : ℕ → Except String α) (m : ℕ),
       (callWithRetry backend m).2.1 ≤ 1 + m) ∧
    (∀ (α : Type) (backend : ℕ → Except String α) (m : ℕ),
       (callWithRetry backend m).2.2 =
         (List.range ((callWithRetry backend m).2.1 - 1)).map (fun a => 2 ^ a)) ∧
    (∀ (α : Type) (backend : ℕ → Except String α) (m : ℕ),
       (∀ a, a ≤ m → ∃ e, backend a = .error e) →
       ∃ e, backend m = .error e ∧
         (callWithRetry backend m).1 = .error (.runtimeError e) ∧
         (callWithRetry backend m).2.1 = 1 + m) ∧
    (∀ (α : Type) (backend : ℕ → Except String α) (validate : α → Bool) (m : ℕ)
        (raw : α),
       (callWithRetry backend m).1 = .ok raw → validate raw = false →
       (detect backend validate m).1 = .error .validationError ∧
       (detect backend validate m).2 = (callWithRetry backend m).2) := by
  refine ⟨?_, ?_, ?_, ?_⟩
  · intro α backend m
    simpa using runAttempts_calls_le backend (List.range (1 + m)) ""
  · intro α backend m
    rw [callWithRetry, runAttempts_sleeps backend (List.range (1 + m)) "",
      List.take_range]
    congr 1
    have hle := runAttempts_calls_le backend (List.range (1 + m)) ""
    rw [List.length_range] at hle
    rw [Nat.min_eq_left (by omega)]
  · intro α backend m hfail
    have hne : List.range (1 + m) ≠ [] := by simp
    have hmem : ∀ y ∈ List.range (1 + m), ∃ e, backend y = .error e := by
      intro y hy
      apply hfail
      have := List.mem_range.mp hy
      omega
    obtain ⟨a, e, hlast, hbe, hres, hcalls⟩ :=
      runAttempts_all_fail backend (List.range (1 + m)) "" hmem hne
    have ha : a = m := by
      rw [Nat.add_comm, List.range_succ, List.getLast?_concat] at hlast
      exact (Option.some_injective ℕ hlast).symm
    refine ⟨e, ?_, hres, ?_⟩
    · rw [← ha]
      exact hbe
    · show (runAttempts backend "" (List.range (1 + m))).2.1 = 1 + m
      rw [hcalls, List.length_range]
  · intro α backend validate m raw hok hval
    refine ⟨?_, ?_⟩ <;>
      · unfold detect
        simp [hok, hval]

/-- C6 witness: a backend that always fails with the same cause, with
`max_retries = 1`. -/
theorem detect_retry_correct_witness :
    ∃ e, (fun (_ : ℕ) => (.error "boom" : Except String ℕ)) 1 = .error e ∧
      (callWithRetry (fun (_ : ℕ) => (.error "boom" : Except String ℕ)) 1).1 =
        .error (.runtimeError e) ∧
      (callWithRetry (fun (_ : ℕ) => (.error "boom" : Except String ℕ)) 1).2.1 = 1 + 1 :=
  detect_retry_correct.2.2.1 ℕ (fun _ => .error "boom") 1 (fun _ _ => ⟨"boom", rfl⟩)

theorem validIndicesAux_eq (dflt : BBox) (l : List BBox) : ∀ s : ℕ,
    ((List.enumFrom s l).filter (fun p => p.2.isValid)).map (fun p => p.1)
      = (List.range' s l.length 1).filter (fun i => (l.getD (i - s) dflt).isValid) := by
  induction l with
  | nil => intro s; simp
  | cons b t ih =>
    intro s
    have hcong : ∀ i ∈ List.range' (s + 1) t.length 1,
        ((b :: t).getD (i - s) dflt).isValid = (t.getD (i - (s + 1)) dflt).isValid := by
      intro i hi
      obtain ⟨j, hj, hij⟩ := List.mem_range'.mp hi
      subst hij
      have h1 : s + 1 + 1 * j - s = j + 1 := by omega
      have h2 : s + 1 + 1 * j - (s + 1) = j := by omega
      rw [h1, h2, List.getD_cons_succ]
    rw [List.length_cons, List.range'_succ]
    cases hb : b.isValid with
    | true =>
      rw [List.enumFrom_cons, List.filter_cons_of_pos (by simpa using hb),
        List.map_cons, List.filter_cons_of_pos (by simp [Nat.sub_self, hb]),
        ih (s + 1), List.filter_congr hcong]
    | false =>
      rw [List.enumFrom_cons, List.filter_cons_of_neg (by simpa using hb),
        List.filter_cons_of_neg (by simp [Nat.sub_self, hb]),
        ih (s + 1), List.filter_congr hcong]

theorem mapResultsLoop_eq_filterMap (origIdx : List ℕ) :
    ∀ raw : List (Option TranslationResult),
      mapResultsLoop origIdx raw = raw.filterMap (fun o =>
        match o with
        | none => none
        | some p =>
          if 0 ≤ p.index ∧ p.index.toNat < origIdx.length then
            some ⟨(origIdx.getD p.index.toNat 0 : ℕ), p.translated⟩
          else none) := by
  intro raw
  induction raw with
  | nil => rfl
  | cons o rest ih =>
    cases o with
    | none => simpa [mapResultsLoop] using ih
    | some p =>
      rw [mapResultsLoop, List.filterMap_cons]
      split_ifs with hcond <;> simp [hcond, ih]

/-- C5: `translate` skips degenerate bboxes and records the original
indices of the valid ones; each well-formed returned item with an
in-range index `parts_idx` is remapped to `valid_indices[parts_idx]`
while malformed and out-of-range items are dropped; the result list is
the index-ascending sort of those remapped items; and an empty bbox
list returns `[]` without a backend call. -/
theorem gemini_translate_correct :
    (∀ raw, geminiTranslate [] raw = ([], false)) ∧
    (∀ bboxes : List BBox, validIndices bboxes =
       (List.range bboxes.length).filter (fun i => (bboxes.getD i ⟨0, 0, 0, 0⟩).isValid)) ∧
    (∀ (origIdx : List ℕ) (raw : List (Option TranslationResult)),
       mapResultsLoop origIdx raw = raw.filterMap (fun o =>
         match o with
         | none => none
         | some p =>
           if 0 ≤ p.index ∧ p.index.toNat < origIdx.length then
             some ⟨(origIdx.getD p.index.toNat 0 : ℕ), p.translated⟩
           else none)) ∧
    (∀ (origIdx : List ℕ) (raw : List (Option TranslationResult)),
       (mapResults raw origIdx).Pairwise (fun a b => a.index ≤ b.index) ∧
       (mapResults raw origIdx).Perm (mapResultsLoop origIdx raw)) ∧
    (∀ (bboxes : List BBox) raw, bboxes ≠ [] → validIndices bboxes ≠ [] →
       geminiTranslate bboxes raw = (mapResults raw (validIndices bboxes), true)) := by
  refine ⟨fun raw => rfl, ?_, mapResultsLoop_eq_filterMap, ?_, ?_⟩
  · intro bboxes
    have h := validIndicesAux_eq ⟨0, 0, 0, 0⟩ bboxes 0
    simpa [validIndices, List.enum_eq_enumFrom, List.range_eq_range'] using h
  · intro origIdx raw
    constructor
    · have hs := @List.sorted_mergeSort TranslationResult
        (fun a b => decide (a.index ≤ b.index))
        (fun a b c hab hbc => by
          simp only [decide_eq_true_eq] at hab hbc ⊢
          exact le_trans hab hbc)
        (fun a b => by
          simp only [Bool.or_eq_true, decide_eq_true_eq]
          exact le_total a.index b.index)
        (mapResultsLoop origIdx raw)
      exact hs.imp (fun h => by simpa using h)
    · exact List.mergeSort_perm (mapResultsLoop origIdx raw) _
  · intro bboxes raw h1 h2
    unfold geminiTranslate
    simp only
    split_ifs with hA hB
    · exact absurd (List.isEmpty_iff.mp hA) h1
    · exact absurd (List.isEmpty_iff.mp hB) h2
    · rfl

/-- C5 witness: one valid and one degenerate bbox, one well-formed item. -/
theorem gemini_translate_correct_witness :
    geminiTranslate [⟨0, 0, 2, 2⟩, ⟨5, 5, 5, 9⟩] [some ⟨0, "hello"⟩]
      = (mapResults [some ⟨0, "hello"⟩] (validIndices [⟨0, 0, 2, 2⟩, ⟨5, 5, 5, 9⟩]), true) :=
  gemini_translate_correct.2.2.2.2 [⟨0, 0, 2, 2⟩, ⟨5, 5, 5, 9⟩] [some ⟨0, "hello"⟩]
    (by simp)
    (by
      norm_num [validIndices, List.enum_eq_enumFrom, List.enumFrom, List.filter,
        BBox.isValid, BBox.width, BBox.height])

theorem findBubbleAux_fst (text : BBox) :
    ∀ (l : List BBox) (acc : Option BBox × ℚ),
      (findBubbleAux text l acc = acc) ∨
      (∃ b ∈ l, (findBubbleAux text l acc).1 = some b ∧
        calcOverlapRatio text b = (findBubbleAux text l acc).2) := by
  intro l
  induction l with
  | nil => intro acc; exact Or.inl rfl
  | cons b rest ih =>
    intro acc
    rw [findBubbleAux]
    split_ifs with hgt
    · rcases ih (some b, calcOverlapRatio text b) with heq | ⟨b', hb', h1, h2⟩
      · exact Or.inr ⟨b, List.mem_cons_self b rest, by rw [heq]; exact ⟨rfl, rfl⟩⟩
      · exact Or.inr ⟨b', List.mem_cons_of_mem b hb', h1, h2⟩
    · rcases ih acc with heq | ⟨b', hb', h1, h2⟩
      · exact Or.inl heq
      · exact Or.inr ⟨b', List.mem_cons_of_mem b hb', h1, h2⟩

theorem findBubbleAux_le (text : BBox) :
    ∀ (l : List BBox) (acc : Option BBox × ℚ),
      acc.2 ≤ (findBubbleAux text l acc).2 ∧
      ∀ b ∈ l, calcOverlapRatio text b ≤ (findBubbleAux text l acc).2 := by
  intro l
  induction l with
  | nil => intro acc; exact ⟨le_rfl, by simp⟩
  | cons b rest ih =>
    intro acc
    rw [findBubbleAux]
    split_ifs with hgt
    · obtain ⟨hacc, hall⟩ := ih (some b, calcOverlapRatio text b)
      refine ⟨le_trans (le_of_lt hgt) hacc, ?_⟩
      intro b' hb'
      rcases List.mem_cons.mp hb' with rfl | hmem
      · exact hacc
      · exact hall b' hmem
    · obtain ⟨hacc, hall⟩ := ih acc
      refine ⟨hacc, ?_⟩
      intro b' hb'
      rcases List.mem_cons.mp hb' with rfl | hmem
      · exact le_trans (not_lt.mp hgt) hacc
      · exact hall b' hmem

theorem findBubble_some (text : BBox) (bubbles : List BBox) (b : BBox)
    (h : findBubble text bubbles = some b) :
    b ∈ bubbles ∧ overlapThreshold < calcOverlapRatio text b ∧
      ∀ b' ∈ bubbles, calcOverlapRatio text b' ≤ calcOverlapRatio text b := by
  unfold findBubble at h
  simp only at h
  split_ifs at h with hgt
  · rcases findBubbleAux_fst text bubbles (none, 0) with heq | ⟨b0, hb0, h1, h2⟩
    · rw [heq] at h; cases h
    · rw [h1] at h
      cases h
      refine ⟨hb0, by rwa [h2], ?_⟩
      intro b' hb'
      rw [h2]
      exact (findBubbleAux_le text bubbles (none, 0)).2 b' hb'

theorem findBubble_none (text : BBox) (bubbles : List BBox)
    (h : findBubble text bubbles = none) :
    ∀ b ∈ bubbles, calcOverlapRatio text b ≤ overlapThreshold := by
  unfold findBubble at h
  simp only at h
  split_ifs at h with hgt
  · rcases findBubbleAux_fst text bubbles (none, 0) with heq | ⟨b0, hb0, h1, h2⟩
    · rw [heq] at hgt
      exact absurd hgt (by norm_num [overlapThreshold])
    · rw [h1] at h; cases h
  · intro b hb
    exact le_trans ((findBubbleAux_le text bubbles (none, 0)).2 b hb) (not_lt.mp hgt)

/-- C8: `classify` partitions the regions in order: a region goes to the
bubble bucket, as a fresh record whose `bubble_bbox` is the bubble
attaining the maximal overlap ratio, exactly when that maximal ratio
strictly exceeds `OVERLAP_THRESHOLD`; otherwise it goes to the free
bucket with `bubble_bbox = none`.  Both buckets preserve the original
order (they are `filterMap`s of the input list), the buckets are
disjoint by construction, and the embedding is pure, so the inputs are
never mutated. -/
theorem classify_correct :
    (∀ (bubbles : List BBox) (regions : List TextRegion),
       (classify bubbles regions).1 = regions.filterMap (fun r =>
         match findBubble r.text_bbox bubbles with
         | some b => some ⟨r.index, r.text_bbox, some b, none, none⟩
         | none => none) ∧
       (classify bubbles regions).2 = regions.filterMap (fun r =>
         match findBubble r.text_bbox bubbles with
         | some _ => none
         | none => some ⟨r.index, r.text_bbox, none, none, none⟩)) ∧
    (∀ (text : BBox) (bubbles : List BBox) (b : BBox),
       findBubble text bubbles = some b →
       b ∈ bubbles ∧ overlapThreshold < calcOverlapRatio text b ∧
         ∀ b' ∈ bubbles, calcOverlapRatio text b' ≤ calcOverlapRatio text b) ∧
    (∀ (text : BBox) (bubbles : List BBox),
       findBubble text bubbles = none →
       ∀ b ∈ bubbles, calcOverlapRatio text b ≤ overlapThreshold) := by
  refine ⟨?_, findBubble_some, findBubble_none⟩
  intro bubbles regions
  induction regions with
  | nil => exact ⟨rfl, rfl⟩
  | cons r rest ih =>
    rw [classify]
    cases hf : findBubble r.text_bbox bubbles with
    | some b =>
      simp only [List.filterMap_cons, hf]
      exact ⟨by rw [ih.1], by rw [ih.2]⟩
    | none =>
      simp only [List.filterMap_cons, hf]
      exact ⟨by rw [ih.1], by rw [ih.2]⟩

/-- C8 witness: a text bbox overlapping a single bubble completely. -/
theorem classify_correct_witness :
    BBox.mk 0 0 100 100 ∈ [BBox.mk 0 0 100 100] ∧
      overlapThreshold <
        calcOverlapRatio ⟨10, 10, 90, 90⟩ ⟨0, 0, 100, 100⟩ ∧
      ∀ b' ∈ [BBox.mk 0 0 100 100],
        calcOverlapRatio ⟨10, 10, 90, 90⟩ b' ≤
          calcOverlapRatio ⟨10, 10, 90, 90⟩ ⟨0, 0, 100, 100⟩ :=
  classify_correct.2.1 ⟨10, 10, 90, 90⟩ [⟨0, 0, 100, 100⟩] ⟨0, 0, 100, 100⟩
    (by
      norm_num [findBubble, findBubbleAux, calcOverlapRatio, BBox.width, BBox.height,
        overlapThreshold])

/-- C3 counterexample: with text bbox `(0,0,4,4)` in bubble
`(0,0,100,100)` on a 200x200 image, the padded text bbox lies entirely
to the left of the inscribed rectangle, the coordinate-wise intersection inverts
(`x1 > x2`), and the `BBox` validator's auto-sort produces an
`inpaint_bbox` that extends outside the inscribed rectangle:
its `x1 = 24/5` is strictly below the inscribed rectangle's
`x1 = 35/2`. -/
theorem inpaint_bbox_escapes_inscribed :
    calcInpaintBbox ⟨0, 0, 4, 4⟩ ⟨0, 0, 100, 100⟩ 200 200 solidFillPadding
      = ⟨24 / 5, 24 / 5, 35 / 2, 35 / 2⟩ ∧
    (inscribedRect ⟨0, 0, 100, 100⟩ inscribedRatio).x1 = 35 / 2 ∧
    ¬((inscribedRect ⟨0, 0, 100, 100⟩ inscribedRatio).x1 ≤
        (calcInpaintBbox ⟨0, 0, 4, 4⟩ ⟨0, 0, 100, 100⟩ 200 200 solidFillPadding).x1) := by
  have h1 : calcInpaintBbox ⟨0, 0, 4, 4⟩ ⟨0, 0, 100, 100⟩ 200 200 solidFillPadding
      = ⟨24 / 5, 24 / 5, 35 / 2, 35 / 2⟩ := by
    simp [calcInpaintBbox, clipToBounds, inscribedRect, mkBBox, BBox.width,
      BBox.height, inscribedRatio, solidFillPadding]
    norm_num [max_def, min_def]
  have h2 : (inscribedRect ⟨0, 0, 100, 100⟩ inscribedRatio).x1 = 35 / 2 := by
    simp [inscribedRect, mkBBox, BBox.width, BBox.height, inscribedRatio]
    norm_num [max_def]
  refine ⟨h1, h2, ?_⟩
  rw [h1, h2]
  norm_num

/-- The clip step confines any bbox to the image bounds, sorted. -/
theorem clipToBounds_spec (b : BBox) (w h : ℕ) :
    0 ≤ (clipToBounds b w h).x1 ∧
    (clipToBounds b w h).x1 ≤ (clipToBounds b w h).x2 ∧
    (clipToBounds b w h).x2 ≤ (w : ℚ) ∧
    0 ≤ (clipToBounds b w h).y1 ∧
    (clipToBounds b w h).y1 ≤ (clipToBounds b w h).y2 ∧
    (clipToBounds b w h).y2 ≤ (h : ℚ) := by
  have hw : (0 : ℚ) ≤ (w : ℚ) := by positivity
  have hh : (0 : ℚ) ≤ (h : ℚ) := by positivity
  unfold clipToBounds mkBBox
  split_ifs with h1 h2 h2 <;>
    exact ⟨le_max_left 0 _, max_le_max le_rfl (by linarith),
      max_le hw (min_le_left _ _), le_max_left 0 _,
      max_le_max le_rfl (by linarith), max_le hh (min_le_left _ _)⟩

/-- On a normalized bbox the clip step is a coordinate-wise `min`. -/
theorem clipToBounds_of_normalized (b : BBox) (hn : b.Normalized) (w h : ℕ) :
    clipToBounds b w h = ⟨min (w : ℚ) b.x1, min (h : ℚ) b.y1,
      min (w : ℚ) b.x2, min (h : ℚ) b.y2⟩ := by
  have hw : (0 : ℚ) ≤ (w : ℚ) := by positivity
  have hh : (0 : ℚ) ≤ (h : ℚ) := by positivity
  obtain ⟨h1, h2, h3, h4⟩ := hn
  unfold clipToBounds
  rw [max_eq_right h1, max_eq_right h3, max_eq_right (le_trans h1 h2),
    max_eq_right (le_trans h3 h4)]
  exact mkBBox_of_normalized _ _ _ _ (le_min hw h1) (min_le_min le_rfl h2)
    (le_min hh h3) (min_le_min le_rfl h4)

/-- On a normalized bubble the inscribed rectangle needs no
renormalization. -/
theorem inscribedRect_of_normalized (b : BBox) (hn : b.Normalized) :
    inscribedRect b inscribedRatio =
      ⟨(b.x1 + b.x2) / 2 - b.width / 2 * inscribedRatio,
       (b.y1 + b.y2) / 2 - b.height / 2 * inscribedRatio,
       (b.x1 + b.x2) / 2 + b.width / 2 * inscribedRatio,
       (b.y1 + b.y2) / 2 + b.height / 2 * inscribedRatio⟩ := by
  obtain ⟨h1, h2, h3, h4⟩ := hn
  unfold inscribedRect BBox.width BBox.height inscribedRatio at *
  exact mkBBox_of_normalized _ _ _ _ (by linarith) (by linarith) (by linarith)
    (by linarith)

theorem inscribedRect_normalized (b : BBox) (hn : b.Normalized) :
    (inscribedRect b inscribedRatio).Normalized := by
  rw [inscribedRect_of_normalized b hn]
  obtain ⟨h1, h2, h3, h4⟩ := hn
  unfold BBox.Normalized BBox.width BBox.height inscribedRatio at *
  exact ⟨by linarith, by linarith, by linarith, by linarith⟩

/-- C3 amended: the computed `inpaint_bbox` always lies inside the image
bounds; and whenever the coordinate-wise intersection of the 20%-padded
text bbox with the inscribed rectangle does not invert, `inpaint_bbox`
equals that intersection clipped to the image bounds and is contained in
the clipped inscribed rectangle.  (When the intersection is empty the
validator's auto-sort may, as the counterexample shows, produce a box
outside the inscribed rectangle.) -/
theorem calc_inpaint_bbox_bounds :
    (∀ (text bubble : BBox) (w h : ℕ) (pad : ℚ),
       0 ≤ (calcInpaintBbox text bubble w h pad).x1 ∧
       (calcInpaintBbox text bubble w h pad).x1 ≤ (calcInpaintBbox text bubble w h pad).x2 ∧
       (calcInpaintBbox text bubble w h pad).x2 ≤ (w : ℚ) ∧
       0 ≤ (calcInpaintBbox text bubble w h pad).y1 ∧
       (calcInpaintBbox text bubble w h pad).y1 ≤ (calcInpaintBbox text bubble w h pad).y2 ∧
       (calcInpaintBbox text bubble w h pad).y2 ≤ (h : ℚ)) ∧
    (∀ (text bubble : BBox) (w h : ℕ), bubble.Normalized →
       max (text.x1 - text.width * solidFillPadding)
           (inscribedRect bubble inscribedRatio).x1 ≤
         min (text.x2 + text.width * solidFillPadding)
           (inscribedRect bubble inscribedRatio).x2 →
       max (text.y1 - text.height * solidFillPadding)
           (inscribedRect bubble inscribedRatio).y1 ≤
         min (text.y2 + text.height * solidFillPadding)
           (inscribedRect bubble inscribedRatio).y2 →
       calcInpaintBbox text bubble w h solidFillPadding =
         clipToBounds
           ⟨max (text.x1 - text.width * solidFillPadding)
              (inscribedRect bubble inscribedRatio).x1,
            max (text.y1 - text.height * solidFillPadding)
              (inscribedRect bubble inscribedRatio).y1,
            min (text.x2 + text.width * solidFillPadding)
              (inscribedRect bubble inscribedRatio).x2,
            min (text.y2 + text.height * solidFillPadding)
              (inscribedRect bubble inscribedRatio).y2⟩ w h ∧
       (clipToBounds (inscribedRect bubble inscribedRatio) w h).x1 ≤
         (calcInpaintBbox text bubble w h solidFillPadding).x1 ∧
       (calcInpaintBbox text bubble w h solidFillPadding).x2 ≤
         (clipToBounds (inscribedRect bubble inscribedRatio) w h).x2 ∧
       (clipToBounds (inscribedRect bubble inscribedRatio) w h).y1 ≤
         (calcInpaintBbox text bubble w h solidFillPadding).y1 ∧
       (calcInpaintBbox text bubble w h solidFillPadding).y2 ≤
         (clipToBounds (inscribedRect bubble inscribedRatio) w h).y2) := by
  constructor
  · intro text bubble w h pad
    exact clipToBounds_spec _ w h
  · intro text bubble w h hn hx hy
    set ins := inscribedRect bubble inscribedRatio with hins
    have hinsn : ins.Normalized := inscribedRect_normalized bubble hn
    have h0x : 0 ≤ max (text.x1 - text.width * solidFillPadding) ins.x1 :=
      le_trans hinsn.1 (le_max_right _ _)
    have h0y : 0 ≤ max (text.y1 - text.height * solidFillPadding) ins.y1 :=
      le_trans hinsn.2.2.1 (le_max_right _ _)
    have hmk : calcInpaintBbox text bubble w h solidFillPadding =
        clipToBounds
          ⟨max (text.x1 - text.width * solidFillPadding) ins.x1,
           max (text.y1 - text.height * solidFillPadding) ins.y1,
           min (text.x2 + text.width * solidFillPadding) ins.x2,
           min (text.y2 + text.height * solidFillPadding) ins.y2⟩ w h := by
      unfold calcInpaintBbox
      simp only [← hins]
      rw [mkBBox_of_normalized _ _ _ _ h0x hx h0y hy]
    have hc1 := clipToBounds_of_normalized ins hinsn w h
    have hc2 := clipToBounds_of_normalized
      ⟨max (text.x1 - text.width * solidFillPadding) ins.x1,
       max (text.y1 - text.height * solidFillPadding) ins.y1,
       min (text.x2 + text.width * solidFillPadding) ins.x2,
       min (text.y2 + text.height * solidFillPadding) ins.y2⟩
      ⟨h0x, hx, h0y, hy⟩ w h
    refine ⟨hmk, ?_, ?_, ?_, ?_⟩ <;> rw [hmk, hc1, hc2]
    · exact min_le_min le_rfl (le_max_right _ _)
    · exact min_le_min le_rfl (min_le_right _ _)
    · exact min_le_min le_rfl (le_max_right _ _)
    · exact min_le_min le_rfl (min_le_right _ _)

/-- C3 witness: a text bbox well inside the bubble's inscribed
rectangle. -/
theorem calc_inpaint_bbox_bounds_witness :
    calcInpaintBbox ⟨40, 40, 60, 60⟩ ⟨0, 0, 100, 100⟩ 200 200 solidFillPadding =
      clipToBounds
        ⟨max ((40 : ℚ) - (BBox.mk 40 40 60 60).width * solidFillPadding)
           (inscribedRect ⟨0, 0, 100, 100⟩ inscribedRatio).x1,
         max ((40 : ℚ) - (BBox.mk 40 40 60 60).height * solidFillPadding)
           (inscribedRect ⟨0, 0, 100, 100⟩ inscribedRatio).y1,
         min ((60 : ℚ) + (BBox.mk 40 40 60 60).width * solidFillPadding)
           (inscribedRect ⟨0, 0, 100, 100⟩ inscribedRatio).x2,
         min ((60 : ℚ) + (BBox.mk 40 40 60 60).height * solidFillPadding)
           (inscribedRect ⟨0, 0, 100, 100⟩ inscribedRatio).y2⟩ 200 200 ∧
    (clipToBounds (inscribedRect ⟨0, 0, 100, 100⟩ inscribedRatio) 200 200).x1 ≤
      (calcInpaintBbox ⟨40, 40, 60, 60⟩ ⟨0, 0, 100, 100⟩ 200 200 solidFillPadding).x1 ∧
    (calcInpaintBbox ⟨40, 40, 60, 60⟩ ⟨0, 0, 100, 100⟩ 200 200 solidFillPadding).x2 ≤
      (clipToBounds (inscribedRect ⟨0, 0, 100, 100⟩ inscribedRatio) 200 200).x2 ∧
    (clipToBounds (inscribedRect ⟨0, 0, 100, 100⟩ inscribedRatio) 200 200).y1 ≤
      (calcInpaintBbox ⟨40, 40, 60, 60⟩ ⟨0, 0, 100, 100⟩ 200 200 solidFillPadding).y1 ∧
    (calcInpaintBbox ⟨40, 40, 60, 60⟩ ⟨0, 0, 100, 100⟩ 200 200 solidFillPadding).y2 ≤
      (clipToBounds (inscribedRect ⟨0, 0, 100, 100⟩ inscribedRatio) 200 200).y2 :=
  calc_inpaint_bbox_bounds.2 ⟨40, 40, 60, 60⟩ ⟨0, 0, 100, 100⟩ 200 200
    (by norm_num [BBox.Normalized])
    (by
      norm_num [inscribedRect, mkBBox, BBox.width, BBox.height, inscribedRatio,
        solidFillPadding, max_def, min_def])
    (by
      norm_num [inscribedRect, mkBBox, BBox.width, BBox.height, inscribedRatio,
        solidFillPadding, max_def, min_def])

end Toonslate
